import Mathlib

/-!
Shallow embedding of `gslib/daisy_chain_wrapper.py`.

The source file contains two classes:

* `BufferWrapper` — the download sink; its `write` busy-waits until
  `bytes_buffered < max_buffer_size`, then appends the chunk to the buffer
  and adds its length to `bytes_buffered` (the check and the append happen
  under the lock, but in two separate critical sections).
* `DaisyChainWrapper` — the bridge exposing `read` / `tell` / `seek` /
  `seekable` to the upload, and the download thread driver
  `PerformDownload`.

We model bytes as naturals, chunks as lists of bytes, and Python integers
as `Int`.  The mutable attributes of `DaisyChainWrapper` become the fields
of `DCState`.  The download thread is modelled by two fields:
`threadChunks`, the list of chunks the currently live thread has not yet
written (a partition of the source bytes from the thread's start byte,
since each `GetObjectMedia` call writes the bytes of its range into the
sink in pieces), and `pending`, which is `some c` exactly when the thread
has passed the capacity check in `BufferWrapper.write` for chunk `c` but
has not yet executed the append — the two separate critical sections of
`write`.

`read` and `seek` are translated as pure functions from a state to a
result/state pair, following the Python control flow branch by branch.
The concurrency between the download thread and the consumer is an
explicit interleaving relation `Step`, with `Reachable` the states
reachable from a freshly constructed wrapper.
-/

namespace DaisyChain

/-- `DAISY_CHAIN_CHUNK_SIZE = 1024*1024*100` from the source. -/
def DAISY_CHAIN_CHUNK_SIZE : Int := 1024 * 1024 * 100

/-- Modelled from the spec: `TRANSFER_BUFFER_SIZE` is imported from
`gslib.util`, which is not part of this repository's sources; the spec
calls it "the fixed transfer-chunk size constant".  Its concrete value
(8 KiB in gsutil) is irrelevant to every claim below; only its use as the
upper bound in `read`'s validation matters. -/
def TRANSFER_BUFFER_SIZE : Int := 8192

/-- `self.max_buffer_size = 1024 * 1024` from `DaisyChainWrapper.__init__`. -/
def maxBufferSize : Int := 1024 * 1024

/-- One chunk of bytes, as handed to `BufferWrapper.write`. -/
abbrev Chunk := List Nat

/-- Length of a chunk as a Python integer. -/
def chunkLen (c : Chunk) : Int := (c.length : Int)

/-- The mutable state of a `DaisyChainWrapper` (plus the model of the
download thread, see the file comment). -/
structure DCState where
  position : Int
  buffer : List Chunk
  bytesBuffered : Int
  lastPosition : Int
  lastData : Option Chunk
  threadChunks : List Chunk
  pending : Option Chunk
deriving DecidableEq

/-- Outcome of `DaisyChainWrapper.read`. -/
inductive ReadResult
  /-- returned `''` (position at end of object, or `amt == 0`) -/
  | empty
  /-- returned the popped chunk -/
  | data (c : Chunk)
  /-- `BadRequestException` "Invalid HTTP read size" raised at validation -/
  | errValidation
  /-- `BadRequestException` "Invalid read ... got data of size" raised
  after popping a chunk larger than `amt` -/
  | errSize
  /-- the buffer is empty and the call would busy-wait -/
  | blocked
deriving DecidableEq

/-- `DaisyChainWrapper.read(amt)`, branch for branch.
`amt = none` models Python's `amt=None` default. -/
def read (src : List Nat) (s : DCState) (amt : Option Int) :
    ReadResult × DCState :=
  if s.position = (src.length : Int) ∨ amt = some 0 then
    (ReadResult.empty, s)
  else
    match amt with
    | none => (ReadResult.errValidation, s)
    | some a =>
      if TRANSFER_BUFFER_SIZE < a then (ReadResult.errValidation, s)
      else
        match s.buffer with
        | [] => (ReadResult.blocked, s)
        | c :: rest =>
          let s' : DCState :=
            { s with
              buffer := rest
              lastPosition := s.position
              lastData := some c
              position := s.position + chunkLen c
              bytesBuffered := s.bytesBuffered - chunkLen c }
          if a < chunkLen c then (ReadResult.errSize, s')
          else (ReadResult.data c, s')

/-- `DaisyChainWrapper.tell()`. -/
def tell (s : DCState) : Int := s.position

/-- Outcome of `DaisyChainWrapper.seek`. -/
inductive SeekResult
  /-- returned normally -/
  | ok
  /-- `BadRequestException` (non-zero offset with `os.SEEK_END`) -/
  | errBadRequest
  /-- `IOError` (unsupported seek mode) -/
  | errIO
  /-- the `else` branch set `restart_download = True`: the caller now
  performs the stop/drain/reset/restart protocol (see `Step.consSeekRestart`) -/
  | restartNeeded
deriving DecidableEq

/-- `os.SEEK_SET`. -/
def SEEK_SET : Int := 0

/-- `os.SEEK_END`. -/
def SEEK_END : Int := 2

/-- `DaisyChainWrapper.seek(offset, whence)`, up to and including the
decision to restart; everything the code does under the lock.  The state
mutations of the restart protocol itself (performed outside the lock)
are in `restartState` / `Step.consSeekRestart`. -/
def seek (src : List Nat) (s : DCState) (offset whence : Int) :
    SeekResult × DCState :=
  if whence = SEEK_END then
    if offset ≠ 0 then (SeekResult.errBadRequest, s)
    else
      (SeekResult.ok,
        { s with
          lastPosition := s.position
          lastData := none
          position := (src.length : Int) })
  else if whence = SEEK_SET then
    if offset = s.position then (SeekResult.ok, s)
    else if offset = s.lastPosition then
      match s.lastData with
      | some c =>
        -- `if self.last_data:` — Python truthiness: `None` and `b''` are falsy
        if c = [] then (SeekResult.ok, { s with position := s.lastPosition })
        else
          (SeekResult.ok,
            { s with
              position := s.lastPosition
              buffer := c :: s.buffer
              bytesBuffered := s.bytesBuffered + chunkLen c })
      | none => (SeekResult.ok, { s with position := s.lastPosition })
    else (SeekResult.restartNeeded, s)
  else (SeekResult.errIO, s)

/-- `DaisyChainWrapper.seekable()`. -/
def seekable (_ : DCState) : Bool := true

/-- The state after the restart protocol of `seek` has completed: the
stop signal was set, the buffer drained until the old thread exited,
position/buffer/counters reset, and `StartDownloadThread(start_byte=offset)`
called with `cs` the chunks the new thread will write. -/
def restartState (offset : Int) (cs : List Chunk) : DCState :=
  { position := offset
    buffer := []
    bytesBuffered := 0
    lastPosition := 0
    lastData := none
    threadChunks := cs
    pending := none }

/-- The state built by `DaisyChainWrapper.__init__`, with `cs` the chunks
the initial download thread (started at byte 0) will write. -/
def initState (cs : List Chunk) : DCState :=
  { position := 0
    buffer := []
    bytesBuffered := 0
    lastPosition := 0
    lastData := none
    threadChunks := cs
    pending := none }

/-- `cs` is a legal sequence of sink writes for a download of `bytes`:
the chunks concatenate to exactly `bytes`, and each is a non-empty piece
of downloaded data of length at most `bound` (the maximal write size of
the fetch client). -/
def goodChunks (bound : Nat) (cs : List Chunk) (bytes : List Nat) : Prop :=
  cs.flatten = bytes ∧ ∀ c ∈ cs, c ≠ [] ∧ c.length ≤ bound

instance (bound : Nat) (cs : List Chunk) (bytes : List Nat) :
    Decidable (goodChunks bound cs bytes) := by
  unfold goodChunks
  exact inferInstance

/-! ## The download thread driver `PerformDownload` -/

/-- One `GetObjectMedia` call issued by `PerformDownload`: either a
ranged request with explicit `start_byte`/`end_byte` (both inclusive), or
the final request with `start_byte` only. -/
inductive Fetch
  | ranged (startByte endByte : Int)
  | openEnded (startByte : Int)
deriving DecidableEq

/-- `PerformDownload(start_byte)`: the sequence of `GetObjectMedia` calls
it issues, together with whether it cleared the stop signal and exited
early.  `stops` is the oracle of values `self.stop_download.is_set()`
returns at the successive checks (one check after each ranged fetch);
a missing entry means the signal is not set.  The returned boolean is
`true` exactly when a set signal was observed, cleared, and the loop
exited without issuing the remaining fetches. -/
def performDownload (srcObjSize startByte : Int) (stops : List Bool) :
    List Fetch × Bool :=
  if startByte + DAISY_CHAIN_CHUNK_SIZE < srcObjSize then
    let f := Fetch.ranged startByte (startByte + DAISY_CHAIN_CHUNK_SIZE - 1)
    if stops.headI then ([f], true)
    else
      let r := performDownload srcObjSize (startByte + DAISY_CHAIN_CHUNK_SIZE) stops.tail
      (f :: r.1, r.2)
  else ([Fetch.openEnded startByte], false)
termination_by (srcObjSize - startByte).toNat
decreasing_by
  have h1 : (0:Int) < DAISY_CHAIN_CHUNK_SIZE := by norm_num [DAISY_CHAIN_CHUNK_SIZE]
  omega

/-- The number of ranged (non-final) fetches `PerformDownload` issues
from `startByte` when never stopped: one per full window. -/
def windowCount (srcObjSize startByte : Int) : Nat :=
  if startByte + DAISY_CHAIN_CHUNK_SIZE < srcObjSize then
    windowCount srcObjSize (startByte + DAISY_CHAIN_CHUNK_SIZE) + 1
  else 0
termination_by (srcObjSize - startByte).toNat
decreasing_by
  have h1 : (0:Int) < DAISY_CHAIN_CHUNK_SIZE := by norm_num [DAISY_CHAIN_CHUNK_SIZE]
  omega

/-- The arithmetic progression of windowed fetches the spec describes:
the `i`-th covers `[startByte + i*RANGE, startByte + (i+1)*RANGE)`. -/
def rangedWindows (startByte : Int) (n : Nat) : List Fetch :=
  (List.range n).map (fun i : Nat =>
    Fetch.ranged (startByte + (i : Int) * DAISY_CHAIN_CHUNK_SIZE)
      (startByte + (i : Int) * DAISY_CHAIN_CHUNK_SIZE + DAISY_CHAIN_CHUNK_SIZE - 1))

/-- Follows the spec's words ("computes successive `[start, start+RANGE)`
windows ... then issues one final open-ended fetch to end of object"):
`n` successive windowed fetches in arithmetic progression followed by the
open-ended one. -/
def specFetches (startByte : Int) (n : Nat) : List Fetch :=
  rangedWindows startByte n ++
    [Fetch.openEnded (startByte + (n : Int) * DAISY_CHAIN_CHUNK_SIZE)]

/-! ## The interleaving of the download thread and the consumer -/

/-- One atomic step of the system: a download-thread action or a consumer
call.  `bound` is the maximal size of a single sink write; `P` constrains
the offsets of restart seeks (instantiated with `trueP` for the
unrestricted system). -/
inductive Step (src : List Nat) (bound : Nat) (P : Int → Prop) :
    DCState → DCState → Prop
  /-- `BufferWrapper.write` passes the capacity check under the lock for
  the next chunk of the live thread; the append is still outstanding. -/
  | prodCheck (s : DCState) (c : Chunk) (rest : List Chunk) :
      s.pending = none → s.threadChunks = c :: rest →
      s.bytesBuffered < maxBufferSize →
      Step src bound P s { s with pending := some c, threadChunks := rest }
  /-- `BufferWrapper.write` performs the append under the lock. -/
  | prodAppend (s : DCState) (c : Chunk) :
      s.pending = some c →
      Step src bound P s
        { s with
          pending := none
          buffer := s.buffer ++ [c]
          bytesBuffered := s.bytesBuffered + chunkLen c }
  /-- The consumer calls `read` (any outcome that returns). -/
  | consRead (s : DCState) (amt : Option Int) (r : ReadResult) (s' : DCState) :
      read src s amt = (r, s') → r ≠ ReadResult.blocked →
      Step src bound P s s'
  /-- The consumer calls `tell`. -/
  | consTell (s : DCState) : Step src bound P s s
  /-- The consumer calls `seek`, any branch except the restart one. -/
  | consSeek (s : DCState) (offset whence : Int) (r : SeekResult) (s' : DCState) :
      seek src s offset whence = (r, s') → r ≠ SeekResult.restartNeeded →
      Step src bound P s s'
  /-- The consumer calls `seek` on the restart branch: the stop signal is
  set, the buffer is drained until the old thread has exited (hence no
  in-flight write is outstanding), the state is reset and a new thread is
  started at `offset`, which will write some partition `cs` of the source
  bytes from `offset`. -/
  | consSeekRestart (s : DCState) (offset : Int) (cs : List Chunk) :
      (seek src s offset SEEK_SET).1 = SeekResult.restartNeeded →
      s.pending = none → P offset →
      goodChunks bound cs (src.drop offset.toNat) →
      Step src bound P s (restartState offset cs)

/-- No restriction on restart offsets. -/
def trueP : Int → Prop := fun _ => True

/-- Restart offsets restricted to `[0, len(src)]`. -/
def boundedP (src : List Nat) : Int → Prop :=
  fun o => 0 ≤ o ∧ o ≤ (src.length : Int)

/-- States reachable from a freshly constructed `DaisyChainWrapper`. -/
inductive Reachable (src : List Nat) (bound : Nat) (P : Int → Prop) :
    DCState → Prop
  | init (cs : List Chunk) : goodChunks bound cs src →
      Reachable src bound P (initState cs)
  | step (s s' : DCState) : Reachable src bound P s → Step src bound P s s' →
      Reachable src bound P s'

/-- Download-thread-only steps (used to describe what happens between a
restart and the consumer's next call). -/
inductive ProdStep : DCState → DCState → Prop
  | check (s : DCState) (c : Chunk) (rest : List Chunk) :
      s.pending = none → s.threadChunks = c :: rest →
      s.bytesBuffered < maxBufferSize →
      ProdStep s { s with pending := some c, threadChunks := rest }
  | append (s : DCState) (c : Chunk) :
      s.pending = some c →
      ProdStep s
        { s with
          pending := none
          buffer := s.buffer ++ [c]
          bytesBuffered := s.bytesBuffered + chunkLen c }

/-- Any number of download-thread steps. -/
def ProdEvolve : DCState → DCState → Prop := Relation.ReflTransGen ProdStep

/-! ## Derived quantities and case-analysis lemmas -/

/-- Total length of a list of chunks. -/
def sumLens (l : List Chunk) : Int := (l.map chunkLen).sum

/-- Length of the in-flight write's chunk, if any. -/
def pendLen (s : DCState) : Int :=
  match s.pending with
  | none => 0
  | some c => chunkLen c

/-- All bytes the system still holds for the consumer: buffered chunks,
the in-flight write, and the chunks the live thread has not yet written. -/
def restBytes (s : DCState) : Int :=
  sumLens s.buffer + pendLen s + sumLens s.threadChunks

/-- The length of the saved last chunk when a one-step rewind could
still replay it (it has not been replayed yet, i.e. the position moved
past `lastPosition`). -/
def credit (s : DCState) : Int :=
  match s.lastData with
  | none => 0
  | some c => if s.position = s.lastPosition then 0 else chunkLen c

/-- A chunk the fetch client may hand to the sink. -/
def chunkOk (bound : Nat) (c : Chunk) : Prop := c ≠ [] ∧ c.length ≤ bound

theorem chunkLen_nonneg (c : Chunk) : 0 ≤ chunkLen c := by
  simp [chunkLen]

theorem sumLens_nonneg (l : List Chunk) : 0 ≤ sumLens l := by
  induction l with
  | nil => simp [sumLens]
  | cons c t ih =>
    simp only [sumLens, List.map_cons, List.sum_cons]
    have h1 := chunkLen_nonneg c
    have h2 : 0 ≤ sumLens t := ih
    unfold sumLens at h2
    omega

theorem sumLens_cons (c : Chunk) (l : List Chunk) :
    sumLens (c :: l) = chunkLen c + sumLens l := by
  simp [sumLens]

theorem sumLens_append (l₁ l₂ : List Chunk) :
    sumLens (l₁ ++ l₂) = sumLens l₁ + sumLens l₂ := by
  simp [sumLens]

theorem pendLen_nonneg (s : DCState) : 0 ≤ pendLen s := by
  unfold pendLen
  cases s.pending with
  | none => simp
  | some c => simpa using chunkLen_nonneg c

theorem restBytes_nonneg (s : DCState) : 0 ≤ restBytes s := by
  unfold restBytes
  have := sumLens_nonneg s.buffer
  have := pendLen_nonneg s
  have := sumLens_nonneg s.threadChunks
  omega

theorem credit_nonneg (s : DCState) : 0 ≤ credit s := by
  unfold credit
  cases s.lastData with
  | none => simp
  | some c =>
    by_cases h : s.position = s.lastPosition <;>
      simp [h, chunkLen_nonneg]

/-- `sumLens` of a partition is the length of the partitioned bytes. -/
theorem sumLens_of_flatten (cs : List Chunk) :
    sumLens cs = (cs.flatten.length : Int) := by
  induction cs with
  | nil => simp [sumLens]
  | cons c t ih => simp [sumLens_cons, ih, chunkLen]

/-- Every returning `read` call either leaves the state unchanged or pops
the front chunk with the mutations of the source's lines 170–176. -/
theorem read_cases (src : List Nat) (s : DCState) (amt : Option Int)
    (r : ReadResult) (s' : DCState) (h : read src s amt = (r, s')) :
    s' = s ∨
      ∃ c rest, s.buffer = c :: rest ∧ s.position ≠ (src.length : Int) ∧
        s' = { s with
                buffer := rest
                lastPosition := s.position
                lastData := some c
                position := s.position + chunkLen c
                bytesBuffered := s.bytesBuffered - chunkLen c } := by
  unfold read at h
  split at h
  · exact Or.inl (congrArg Prod.snd h).symm
  · rename_i hnot
    split at h
    · exact Or.inl (congrArg Prod.snd h).symm
    · rename_i a
      split at h
      · exact Or.inl (congrArg Prod.snd h).symm
      · split at h
        · exact Or.inl (congrArg Prod.snd h).symm
        · rename_i c rest hbuf
          simp only at h
          refine Or.inr ⟨c, rest, hbuf, ?_, ?_⟩
          · intro hpos
            exact hnot (Or.inl hpos)
          · split at h <;>
              exact (congrArg Prod.snd h).symm

/-- Every returning `seek` call (including the lock-held part of the
restart branch, which mutates nothing) either leaves the state unchanged,
or performs the `SEEK_END` mutation, or one of the two one-step-rewind
mutations. -/
theorem seek_cases (src : List Nat) (s : DCState) (offset whence : Int)
    (r : SeekResult) (s' : DCState) (h : seek src s offset whence = (r, s')) :
    s' = s
    ∨ s' = { s with
              lastPosition := s.position
              lastData := none
              position := (src.length : Int) }
    ∨ (offset = s.lastPosition ∧ offset ≠ s.position ∧
        (s.lastData = none ∨ s.lastData = some []) ∧
        s' = { s with position := s.lastPosition })
    ∨ (∃ c, s.lastData = some c ∧ c ≠ [] ∧
        offset = s.lastPosition ∧ offset ≠ s.position ∧
        s' = { s with
                position := s.lastPosition
                buffer := c :: s.buffer
                bytesBuffered := s.bytesBuffered + chunkLen c }) := by
  unfold seek at h
  split at h
  · split at h
    · exact Or.inl (congrArg Prod.snd h).symm
    · exact Or.inr (Or.inl (congrArg Prod.snd h).symm)
  · split at h
    · split at h
      · exact Or.inl (congrArg Prod.snd h).symm
      · rename_i hoffpos
        split at h
        · rename_i hofflast
          split at h
          · rename_i c hld
            split at h
            · rename_i hcnil
              subst hcnil
              exact Or.inr (Or.inr (Or.inl
                ⟨hofflast, hoffpos, Or.inr hld, (congrArg Prod.snd h).symm⟩))
            · rename_i hcne
              exact Or.inr (Or.inr (Or.inr
                ⟨c, hld, hcne, hofflast, hoffpos, (congrArg Prod.snd h).symm⟩))
          · rename_i hld
            exact Or.inr (Or.inr (Or.inl
              ⟨hofflast, hoffpos, Or.inl hld, (congrArg Prod.snd h).symm⟩))
        · exact Or.inl (congrArg Prod.snd h).symm
    · exact Or.inl (congrArg Prod.snd h).symm

/-! ## Invariants -/

/-- Every chunk the state holds anywhere was produced by a sink write:
non-empty and of length at most `bound`. -/
def InvW (bound : Nat) (s : DCState) : Prop :=
  (∀ c ∈ s.buffer, chunkOk bound c) ∧
  (∀ c ∈ s.threadChunks, chunkOk bound c) ∧
  (∀ c, s.pending = some c → chunkOk bound c) ∧
  (∀ c, s.lastData = some c → chunkOk bound c)

/-- The buffered-byte counter bound: while no write is in flight the
counter plus the outstanding rewind credit stays below
`maxBufferSize + 2*bound`; while a write is in flight (its capacity
check passed when the counter was `< maxBufferSize`) it stays below
`maxBufferSize + bound`, leaving room for the append. -/
def Inv5 (bound : Nat) (s : DCState) : Prop :=
  (s.pending = none →
    s.bytesBuffered + credit s ≤ maxBufferSize - 1 + 2 * (bound : Int)) ∧
  (∀ c, s.pending = some c →
    s.bytesBuffered + credit s ≤ maxBufferSize - 1 + (bound : Int))

theorem credit_le (bound : Nat) (s : DCState)
    (hl : ∀ c, s.lastData = some c → chunkOk bound c) :
    credit s ≤ (bound : Int) := by
  unfold credit
  cases hld : s.lastData with
  | none => simp
  | some c =>
    obtain ⟨-, hlen⟩ := hl c hld
    by_cases h : s.position = s.lastPosition <;> simp [h, chunkLen]
    · exact_mod_cast hlen

theorem inv_step (src : List Nat) (bound : Nat) (P : Int → Prop)
    (s s' : DCState) (hw : InvW bound s) (h5 : Inv5 bound s)
    (hstep : Step src bound P s s') : InvW bound s' ∧ Inv5 bound s' := by
  obtain ⟨hwb, hwt, hwp, hwl⟩ := hw
  obtain ⟨h5i, h5p⟩ := h5
  have hcred0 : 0 ≤ credit s := credit_nonneg s
  have hcredle : credit s ≤ (bound : Int) := credit_le bound s hwl
  cases hstep with
  | prodCheck c rest hpend hthread hcap =>
    have hcmem : chunkOk bound c := hwt c (by rw [hthread]; exact List.mem_cons_self c rest)
    refine ⟨⟨hwb, ?_, ?_, hwl⟩, ?_, ?_⟩
    · intro c' hc'
      exact hwt c' (by rw [hthread]; exact List.mem_cons_of_mem c hc')
    · intro c' hc'
      simp only at hc'
      cases hc'
      exact hcmem
    · intro hnone
      simp at hnone
    · intro c' hc'
      show s.bytesBuffered + credit s ≤ _
      omega
  | prodAppend c hpend =>
    have hcok : chunkOk bound c := hwp c hpend
    refine ⟨⟨?_, hwt, ?_, hwl⟩, ?_, ?_⟩
    · intro c' hc'
      rcases List.mem_append.mp hc' with hmem | hmem
      · exact hwb c' hmem
      · cases List.mem_singleton.mp hmem
        exact hcok
    · intro c' hc'
      simp at hc'
    · intro _
      show s.bytesBuffered + chunkLen c + credit s ≤ _
      have := h5p c hpend
      have hlen : chunkLen c ≤ (bound : Int) := by
        have := hcok.2
        unfold chunkLen
        exact_mod_cast this
      omega
    · intro c' hc'
      simp at hc'
  | consRead amt r sr hread hnb =>
    rcases read_cases _ _ _ _ _ hread with heq | ⟨c, rest, hbuf, hpos, heq⟩
    · subst heq
      exact ⟨⟨hwb, hwt, hwp, hwl⟩, h5i, h5p⟩
    · subst heq
      have hcok : chunkOk bound c := hwb c (by rw [hbuf]; exact List.mem_cons_self c rest)
      refine ⟨⟨?_, hwt, hwp, ?_⟩, ?_, ?_⟩
      · intro c' hc'
        exact hwb c' (by rw [hbuf]; exact List.mem_cons_of_mem c hc')
      · intro c' hc'
        simp only at hc'
        cases hc'
        exact hcok
      · intro hnone
        have h1 := h5i hnone
        have hcr : credit { s with
            buffer := rest
            lastPosition := s.position
            lastData := some c
            position := s.position + chunkLen c
            bytesBuffered := s.bytesBuffered - chunkLen c } ≤ chunkLen c := by
          unfold credit
          simp only
          split <;> simp [chunkLen_nonneg]
        show s.bytesBuffered - chunkLen c + _ ≤ _
        omega
      · intro c' hc'
        have h1 := h5p c' hc'
        have hcr : credit { s with
            buffer := rest
            lastPosition := s.position
            lastData := some c
            position := s.position + chunkLen c
            bytesBuffered := s.bytesBuffered - chunkLen c } ≤ chunkLen c := by
          unfold credit
          simp only
          split <;> simp [chunkLen_nonneg]
        show s.bytesBuffered - chunkLen c + _ ≤ _
        omega
  | consTell =>
    exact ⟨⟨hwb, hwt, hwp, hwl⟩, h5i, h5p⟩
  | consSeek offset whence r sr hseek hnr =>
    rcases seek_cases _ _ _ _ _ _ hseek with
      heq | heq | ⟨hoff, hne, hld, heq⟩ | ⟨c, hld, hcne, hoff, hne, heq⟩
    · subst heq
      exact ⟨⟨hwb, hwt, hwp, hwl⟩, h5i, h5p⟩
    · subst heq
      refine ⟨⟨hwb, hwt, hwp, ?_⟩, ?_, ?_⟩
      · intro c' hc'
        simp at hc'
      · intro hnone
        have h1 := h5i hnone
        have hcr : credit { s with
            lastPosition := s.position
            lastData := none
            position := (src.length : Int) } = 0 := by
          unfold credit
          simp
        show s.bytesBuffered + _ ≤ _
        omega
      · intro c' hc'
        have h1 := h5p c' hc'
        have hcr : credit { s with
            lastPosition := s.position
            lastData := none
            position := (src.length : Int) } = 0 := by
          unfold credit
          simp
        show s.bytesBuffered + _ ≤ _
        omega
    · subst heq
      refine ⟨⟨hwb, hwt, hwp, hwl⟩, ?_, ?_⟩
      · intro hnone
        have h1 := h5i hnone
        have hcr : credit { s with position := s.lastPosition } = 0 := by
          unfold credit
          cases s.lastData <;> simp
        show s.bytesBuffered + _ ≤ _
        omega
      · intro c' hc'
        have h1 := h5p c' hc'
        have hcr : credit { s with position := s.lastPosition } = 0 := by
          unfold credit
          cases s.lastData <;> simp
        show s.bytesBuffered + _ ≤ _
        omega
    · subst heq
      have hcrold : credit s = chunkLen c := by
        unfold credit
        rw [hld]
        simp only
        rw [if_neg]
        intro hpe
        rw [hoff] at hne
        exact hne hpe.symm
      have hcok : chunkOk bound c := hwl c hld
      refine ⟨⟨?_, hwt, hwp, hwl⟩, ?_, ?_⟩
      · intro c' hc'
        rcases List.mem_cons.mp hc' with hmem | hmem
        · subst hmem
          exact hcok
        · exact hwb c' hmem
      · intro hnone
        have h1 := h5i hnone
        have hcr : credit { s with
            position := s.lastPosition
            buffer := c :: s.buffer
            bytesBuffered := s.bytesBuffered + chunkLen c } = 0 := by
          unfold credit
          rw [hld]
          simp
        show s.bytesBuffered + chunkLen c + _ ≤ _
        omega
      · intro c' hc'
        have h1 := h5p c' hc'
        have hcr : credit { s with
            position := s.lastPosition
            buffer := c :: s.buffer
            bytesBuffered := s.bytesBuffered + chunkLen c } = 0 := by
          unfold credit
          rw [hld]
          simp
        show s.bytesBuffered + chunkLen c + _ ≤ _
        omega
  | consSeekRestart offset cs hsr hpend hP hgood =>
    refine ⟨⟨?_, ?_, ?_, ?_⟩, ?_, ?_⟩
    · intro c hc
      simp [restartState] at hc
    · intro c hc
      exact ⟨(hgood.2 c hc).1, (hgood.2 c hc).2⟩
    · intro c hc
      simp [restartState] at hc
    · intro c hc
      simp [restartState] at hc
    · intro _
      show (0:Int) + credit (restartState offset cs) ≤ _
      have : credit (restartState offset cs) = 0 := by
        unfold credit restartState
        simp
      rw [this]
      have : (0:Int) ≤ (bound : Int) := Int.ofNat_nonneg bound
      norm_num [maxBufferSize]
      omega
    · intro c hc
      simp [restartState] at hc

/-- `InvW` and `Inv5` hold in every reachable state. -/
theorem inv_reachable (src : List Nat) (bound : Nat) (P : Int → Prop)
    (s : DCState) (h : Reachable src bound P s) : InvW bound s ∧ Inv5 bound s := by
  induction h with
  | init cs hgood =>
    refine ⟨⟨?_, ?_, ?_, ?_⟩, ?_, ?_⟩
    · intro c hc
      simp [initState] at hc
    · intro c hc
      exact ⟨(hgood.2 c hc).1, (hgood.2 c hc).2⟩
    · intro c hc
      simp [initState] at hc
    · intro c hc
      simp [initState] at hc
    · intro _
      show (0:Int) + credit (initState cs) ≤ _
      have : credit (initState cs) = 0 := by
        unfold credit initState
        simp
      rw [this]
      have : (0:Int) ≤ (bound : Int) := Int.ofNat_nonneg bound
      norm_num [maxBufferSize]
      omega
    · intro c hc
      simp [initState] at hc
  | step s s' _ hstep ih =>
    exact inv_step src bound P s s' ih.1 ih.2 hstep

/-- The position-bound invariant.  Besides the bounds on `position` and
`lastPosition` themselves it carries what makes them inductive: the saved
chunk sits immediately before the position that its read produced; when
`lastData` is cleared, `lastPosition` is a position the stream can resume
from; and the bytes still held never overrun the object, except for the
logical jump of a `SEEK_END` (in which case `position` is pinned to the
object size and `lastData` is cleared). -/
def Inv6 (src : List Nat) (s : DCState) : Prop :=
  0 ≤ s.position ∧ s.position ≤ (src.length : Int) ∧
  0 ≤ s.lastPosition ∧ s.lastPosition ≤ (src.length : Int) ∧
  (∀ c, s.lastData = some c → s.position ≠ s.lastPosition →
      s.position = s.lastPosition + chunkLen c) ∧
  (s.lastData = none →
      s.lastPosition = (src.length : Int) ∨
      s.lastPosition + restBytes s ≤ (src.length : Int)) ∧
  (s.position + restBytes s ≤ (src.length : Int) ∨
      (s.position = (src.length : Int) ∧ s.lastData = none))

theorem inv6_step (src : List Nat) (bound : Nat) (P : Int → Prop)
    (hP : ∀ o, P o → 0 ≤ o ∧ o ≤ (src.length : Int))
    (s s' : DCState) (h6 : Inv6 src s)
    (hstep : Step src bound P s s') : Inv6 src s' := by
  obtain ⟨hp0, hpL, hl0, hlL, hc5, hc6, hc7⟩ := h6
  cases hstep with
  | prodCheck c rest hpend hthread hcap =>
    have hrb : restBytes { s with pending := some c, threadChunks := rest }
        = restBytes s := by
      unfold restBytes pendLen
      simp only [hpend, hthread, sumLens_cons]
      omega
    refine ⟨hp0, hpL, hl0, hlL, hc5, ?_, ?_⟩
    · intro hnone
      rw [hrb]
      exact hc6 hnone
    · rw [show ({ s with pending := some c, threadChunks := rest } : DCState).position
            = s.position from rfl, hrb]
      exact hc7
  | prodAppend c hpend =>
    have hrb : restBytes { s with
        pending := none
        buffer := s.buffer ++ [c]
        bytesBuffered := s.bytesBuffered + chunkLen c } = restBytes s := by
      unfold restBytes pendLen
      rw [hpend]
      simp [sumLens_append, sumLens]
      try omega
    refine ⟨hp0, hpL, hl0, hlL, hc5, ?_, ?_⟩
    · intro hnone
      rw [hrb]
      exact hc6 hnone
    · rw [show ({ s with
            pending := none
            buffer := s.buffer ++ [c]
            bytesBuffered := s.bytesBuffered + chunkLen c } : DCState).position
            = s.position from rfl, hrb]
      exact hc7
  | consRead amt r sr hread hnb =>
    rcases read_cases _ _ _ _ _ hread with heq | ⟨c, rest, hbuf, hpos, heq⟩
    · subst heq
      exact ⟨hp0, hpL, hl0, hlL, hc5, hc6, hc7⟩
    · subst heq
      have hsum : sumLens s.buffer = chunkLen c + sumLens rest := by
        rw [hbuf, sumLens_cons]
      have hrb : restBytes { s with
          buffer := rest
          lastPosition := s.position
          lastData := some c
          position := s.position + chunkLen c
          bytesBuffered := s.bytesBuffered - chunkLen c }
          = restBytes s - chunkLen c := by
        unfold restBytes pendLen
        simp only
        omega
      have hA : s.position + restBytes s ≤ (src.length : Int) := by
        rcases hc7 with hA | ⟨hB, -⟩
        · exact hA
        · exact absurd hB hpos
      have hlen0 := chunkLen_nonneg c
      have hrest0 := sumLens_nonneg rest
      have hpend0 := pendLen_nonneg s
      have hth0 := sumLens_nonneg s.threadChunks
      have hrbval : restBytes s
          = sumLens s.buffer + pendLen s + sumLens s.threadChunks := rfl
      refine ⟨?_, ?_, hp0, hpL, ?_, ?_, ?_⟩
      · show (0:Int) ≤ s.position + chunkLen c
        omega
      · show s.position + chunkLen c ≤ (src.length : Int)
        omega
      · intro c' hcc' hne
        cases hcc'
        rfl
      · intro hnone
        simp at hnone
      · left
        show s.position + chunkLen c + _ ≤ _
        rw [hrb]
        omega
  | consTell =>
    exact ⟨hp0, hpL, hl0, hlL, hc5, hc6, hc7⟩
  | consSeek offset whence r sr hseek hnr =>
    rcases seek_cases _ _ _ _ _ _ hseek with
      heq | heq | ⟨hoff, hne, hld, heq⟩ | ⟨c, hld, hcne, hoff, hne, heq⟩
    · subst heq
      exact ⟨hp0, hpL, hl0, hlL, hc5, hc6, hc7⟩
    · subst heq
      have hrb : restBytes { s with
          lastPosition := s.position
          lastData := none
          position := (src.length : Int) } = restBytes s := rfl
      refine ⟨Int.ofNat_nonneg _, le_refl _, hp0, hpL, ?_, ?_, ?_⟩
      · intro c' hcc' hne
        simp at hcc'
      · intro _
        rw [hrb]
        rcases hc7 with hA | ⟨hB, -⟩
        · right
          exact hA
        · left
          exact hB
      · right
        exact ⟨rfl, rfl⟩
    · subst heq
      have hrb : restBytes { s with position := s.lastPosition } = restBytes s := rfl
      have hpne : s.position ≠ s.lastPosition := by
        rw [hoff] at hne
        intro hpe
        exact hne hpe.symm
      refine ⟨hl0, hlL, hl0, hlL, ?_, ?_, ?_⟩
      · intro c' hcc' hne'
        exact absurd rfl hne'
      · intro hnone
        rw [hrb]
        exact hc6 hnone
      · rcases hld with hldn | hlds
        · rcases hc6 hldn with hL | hle
          · right
            exact ⟨hL, hldn⟩
          · left
            rw [hrb]
            exact hle
        · exact absurd (by simpa [chunkLen] using hc5 [] hlds hpne) hpne
    · subst heq
      have hpne : s.position ≠ s.lastPosition := by
        rw [hoff] at hne
        intro hpe
        exact hne hpe.symm
      have hplc : s.position = s.lastPosition + chunkLen c := hc5 c hld hpne
      have hrb : restBytes { s with
          position := s.lastPosition
          buffer := c :: s.buffer
          bytesBuffered := s.bytesBuffered + chunkLen c }
          = restBytes s + chunkLen c := by
        unfold restBytes pendLen
        simp only [sumLens_cons]
        omega
      have hA : s.position + restBytes s ≤ (src.length : Int) := by
        rcases hc7 with hA | ⟨-, hB⟩
        · exact hA
        · rw [hld] at hB
          exact absurd hB (by simp)
      refine ⟨hl0, hlL, hl0, hlL, ?_, ?_, ?_⟩
      · intro c' hcc' hne'
        exact absurd rfl hne'
      · intro hnone
        rw [hld] at hnone
        exact absurd hnone (by simp)
      · left
        show s.lastPosition + _ ≤ _
        rw [hrb]
        omega
  | consSeekRestart offset cs hsr hpend hPo hgood =>
    obtain ⟨ho0, hoL⟩ := hP offset hPo
    have hrb : restBytes (restartState offset cs) = sumLens cs := by
      unfold restBytes pendLen restartState
      simp [sumLens]
    have hcslen : sumLens cs = ((src.drop offset.toNat).length : Int) := by
      rw [sumLens_of_flatten, hgood.1]
    have hdl : (src.drop offset.toNat).length = src.length - offset.toNat :=
      List.length_drop _ _
    refine ⟨ho0, hoL, le_refl 0, Int.ofNat_nonneg _, ?_, ?_, ?_⟩
    · intro c' hcc' hne
      simp [restartState] at hcc'
    · intro _
      right
      show (0:Int) + restBytes (restartState offset cs) ≤ _
      rw [hrb, hcslen, hdl]
      omega
    · left
      show offset + restBytes (restartState offset cs) ≤ _
      rw [hrb, hcslen, hdl]
      omega

/-- `Inv6` holds in every state reachable with restart offsets inside
`[0, len(src)]`. -/
theorem inv6_reachable (src : List Nat) (bound : Nat) (s : DCState)
    (h : Reachable src bound (boundedP src) s) : Inv6 src s := by
  induction h with
  | init cs hgood =>
    have hrb : restBytes (initState cs) = sumLens cs := by
      unfold restBytes pendLen initState
      simp [sumLens]
    have hcslen : sumLens cs = (src.length : Int) := by
      rw [sumLens_of_flatten, hgood.1]
    refine ⟨le_refl 0, Int.ofNat_nonneg _, le_refl 0, Int.ofNat_nonneg _, ?_, ?_, ?_⟩
    · intro c' hcc' hne
      simp [initState] at hcc'
    · intro _
      right
      show (0:Int) + restBytes (initState cs) ≤ _
      rw [hrb, hcslen]
      omega
    · left
      show (0:Int) + restBytes (initState cs) ≤ _
      rw [hrb, hcslen]
      omega
  | step s s' _ hstep ih =>
    exact inv6_step src bound (boundedP src) (fun o ho => ho) s s' ih hstep

/-! ## What the download thread alone does to a fresh state -/

theorem drop_cons_take (cs : List Chunk) (k : Nat) (c : Chunk) (rest : List Chunk)
    (h : cs.drop k = c :: rest) :
    cs.take (k + 1) = cs.take k ++ [c] ∧ cs.drop (k + 1) = rest := by
  induction cs generalizing k with
  | nil => simp at h
  | cons d t ih =>
    cases k with
    | zero =>
      simp only [List.drop] at h
      cases h
      simp
    | succ k =>
      simp only [List.drop] at h
      have := ih k h
      simp only [List.take, List.drop]
      exact ⟨by rw [this.1, List.cons_append], this.2⟩

theorem take_eq_cons_head (cs : List Chunk) (k : Nat) (d : Chunk) (r : List Chunk)
    (h : cs.take k = d :: r) : ∃ t, cs = d :: t := by
  cases cs with
  | nil => simp at h
  | cons e t =>
    cases k with
    | zero => simp at h
    | succ k =>
      simp only [List.take] at h
      cases h
      exact ⟨t, rfl⟩

theorem take_length_append (d : List Nat) (x : List Nat) :
    (d ++ x).take d.length = d := by
  induction d with
  | nil => simp
  | cons a t ih => simp [ih]

/-- Invariant of a state whose live thread was started with chunk list
`cs` against an empty buffer, evolved only by the thread itself: the
buffer is a prefix of `cs` and pending/thread hold the rest in order. -/
def prodInv (cs : List Chunk) (s : DCState) : Prop :=
  ∃ k, s.buffer = cs.take k ∧
    ((s.pending = none ∧ s.threadChunks = cs.drop k) ∨
     (∃ c rest, cs.drop k = c :: rest ∧ s.pending = some c ∧ s.threadChunks = rest))

theorem prodInv_step (cs : List Chunk) (s s' : DCState) (h : prodInv cs s)
    (hstep : ProdStep s s') : prodInv cs s' := by
  obtain ⟨k, hbuf, hrest⟩ := h
  cases hstep with
  | check c rest hpend hthread hcap =>
    rcases hrest with ⟨hpn, hth⟩ | ⟨c', rest', hdrop, hps, hth⟩
    · refine ⟨k, hbuf, Or.inr ⟨c, rest, ?_, rfl, rfl⟩⟩
      rw [← hth, hthread]
    · rw [hps] at hpend
      cases hpend
  | append c hpend =>
    rcases hrest with ⟨hpn, hth⟩ | ⟨c', rest', hdrop, hps, hth⟩
    · rw [hpn] at hpend
      cases hpend
    · have hcc : c = c' := by
        rw [hps] at hpend
        exact (Option.some.inj hpend).symm
      subst hcc
      obtain ⟨htake, hdrop'⟩ := drop_cons_take cs k c rest' hdrop
      refine ⟨k + 1, ?_, Or.inl ⟨rfl, ?_⟩⟩
      · show s.buffer ++ [c] = cs.take (k + 1)
        rw [hbuf, htake]
      · show s.threadChunks = cs.drop (k + 1)
        rw [hth, hdrop']

theorem prodInv_evolve (cs : List Chunk) (s s' : DCState) (h : prodInv cs s)
    (hev : ProdEvolve s s') : prodInv cs s' := by
  induction hev with
  | refl => exact h
  | tail _ hstep ih => exact prodInv_step cs _ _ ih hstep

theorem prodInv_restart (offset : Int) (cs : List Chunk) :
    prodInv cs (restartState offset cs) :=
  ⟨0, by simp [restartState], Or.inl ⟨rfl, by simp [restartState]⟩⟩

/-- Producer steps never change the consumer-visible cursor fields. -/
theorem prodStep_fixes_consumer (s s' : DCState) (hstep : ProdStep s s') :
    s'.position = s.position ∧ s'.lastPosition = s.lastPosition ∧
      s'.lastData = s.lastData := by
  cases hstep with
  | check c rest hpend hthread hcap => exact ⟨rfl, rfl, rfl⟩
  | append c hpend => exact ⟨rfl, rfl, rfl⟩

theorem prodEvolve_fixes_consumer (s s' : DCState) (hev : ProdEvolve s s') :
    s'.position = s.position ∧ s'.lastPosition = s.lastPosition ∧
      s'.lastData = s.lastData := by
  induction hev with
  | refl => exact ⟨rfl, rfl, rfl⟩
  | tail _ hstep ih =>
    have h := prodStep_fixes_consumer _ _ hstep
    exact ⟨h.1.trans ih.1, h.2.1.trans ih.2.1, h.2.2.trans ih.2.2⟩

/-! ## Exact characterizations of the successful branches -/

/-- Everything that is true when `read` returns data. -/
theorem read_data_eq (src : List Nat) (s : DCState) (amt : Option Int)
    (d : Chunk) (sx : DCState)
    (h : read src s amt = (ReadResult.data d, sx)) :
    ∃ a rest, amt = some a ∧ s.position ≠ (src.length : Int) ∧ a ≠ 0 ∧
      a ≤ TRANSFER_BUFFER_SIZE ∧ s.buffer = d :: rest ∧ chunkLen d ≤ a ∧
      sx = { s with
              buffer := rest
              lastPosition := s.position
              lastData := some d
              position := s.position + chunkLen d
              bytesBuffered := s.bytesBuffered - chunkLen d } := by
  unfold read at h
  split at h
  · cases h
  · rename_i hnot
    split at h
    · cases h
    · rename_i a
      split at h
      · cases h
      · rename_i hle
        split at h
        · cases h
        · rename_i c rest hbuf
          simp only at h
          split at h
          · cases h
          · rename_i hfit
            obtain ⟨hd, hs⟩ := Prod.mk.injEq .. ▸ h
            cases hd
            refine ⟨a, rest, rfl, fun hpos => hnot (Or.inl hpos),
              fun ha => hnot (Or.inr (by rw [ha])), le_of_not_lt hle, hbuf,
              le_of_not_lt hfit, hs.symm⟩

/-! ## Characterization of the download loop -/

theorem chunk_size_pos : (0:Int) < DAISY_CHAIN_CHUNK_SIZE := by
  norm_num [DAISY_CHAIN_CHUNK_SIZE]

theorem rangedWindows_succ (startByte : Int) (n : Nat) :
    rangedWindows startByte (n + 1) =
      Fetch.ranged startByte (startByte + DAISY_CHAIN_CHUNK_SIZE - 1) ::
        rangedWindows (startByte + DAISY_CHAIN_CHUNK_SIZE) n := by
  unfold rangedWindows
  rw [List.range_succ_eq_map, List.map_cons, List.map_map]
  congr 1
  · simp only [Fetch.ranged.injEq]
    constructor <;> push_cast <;> ring
  · congr 1
    funext i
    simp only [Function.comp_apply, Fetch.ranged.injEq]
    constructor <;> push_cast <;> ring

theorem specFetches_succ (startByte : Int) (n : Nat) :
    specFetches startByte (n + 1) =
      Fetch.ranged startByte (startByte + DAISY_CHAIN_CHUNK_SIZE - 1) ::
        specFetches (startByte + DAISY_CHAIN_CHUNK_SIZE) n := by
  unfold specFetches
  rw [rangedWindows_succ, List.cons_append]
  rw [show startByte + ((n + 1 : Nat) : Int) * DAISY_CHAIN_CHUNK_SIZE
      = startByte + DAISY_CHAIN_CHUNK_SIZE + (n : Int) * DAISY_CHAIN_CHUNK_SIZE by
    push_cast
    ring]

theorem windowCount_pos (srcObjSize startByte : Int)
    (h : startByte + DAISY_CHAIN_CHUNK_SIZE < srcObjSize) :
    windowCount srcObjSize startByte =
      windowCount srcObjSize (startByte + DAISY_CHAIN_CHUNK_SIZE) + 1 := by
  rw [windowCount]
  rw [if_pos h]

theorem windowCount_base (srcObjSize startByte : Int)
    (h : ¬ startByte + DAISY_CHAIN_CHUNK_SIZE < srcObjSize) :
    windowCount srcObjSize startByte = 0 := by
  rw [windowCount]
  rw [if_neg h]

theorem performDownload_no_stop_aux (srcObjSize : Int) (n : Nat) :
    ∀ startByte stops, (srcObjSize - startByte).toNat ≤ n →
      (∀ b ∈ stops, b = false) →
      performDownload srcObjSize startByte stops =
        (specFetches startByte (windowCount srcObjSize startByte), false) := by
  induction n with
  | zero =>
    intro startByte stops hle hstops
    have hnot : ¬ startByte + DAISY_CHAIN_CHUNK_SIZE < srcObjSize := by
      have := chunk_size_pos
      omega
    rw [performDownload, if_neg hnot, windowCount_base _ _ hnot]
    unfold specFetches rangedWindows
    simp
  | succ n ih =>
    intro startByte stops hle hstops
    by_cases h : startByte + DAISY_CHAIN_CHUNK_SIZE < srcObjSize
    · have hhead : stops.headI = false := by
        cases stops with
        | nil => rfl
        | cons b t => exact hstops b (List.mem_cons_self b t)
      have htail : ∀ b ∈ stops.tail, b = false := by
        intro b hb
        exact hstops b (List.mem_of_mem_tail hb)
      rw [performDownload, if_pos h, hhead]
      simp only [Bool.false_eq_true, if_false]
      rw [ih (startByte + DAISY_CHAIN_CHUNK_SIZE) stops.tail
        (by have := chunk_size_pos; omega) htail]
      rw [windowCount_pos _ _ h, specFetches_succ]
    · rw [performDownload, if_neg h, windowCount_base _ _ h]
      unfold specFetches rangedWindows
      simp

theorem performDownload_stop_aux (srcObjSize : Int) :
    ∀ i startByte rest, i + 1 ≤ windowCount srcObjSize startByte →
      performDownload srcObjSize startByte (List.replicate i false ++ true :: rest) =
        (rangedWindows startByte (i + 1), true) := by
  intro i
  induction i with
  | zero =>
    intro startByte rest h
    have hlt : startByte + DAISY_CHAIN_CHUNK_SIZE < srcObjSize := by
      by_contra hnot
      rw [windowCount_base _ _ hnot] at h
      omega
    rw [performDownload, if_pos hlt]
    rw [show (List.replicate 0 false ++ true :: rest).headI = true from rfl]
    rw [if_pos rfl]
    rw [rangedWindows_succ]
    unfold rangedWindows
    simp
  | succ i ih =>
    intro startByte rest h
    have hlt : startByte + DAISY_CHAIN_CHUNK_SIZE < srcObjSize := by
      by_contra hnot
      rw [windowCount_base _ _ hnot] at h
      omega
    have hwc : i + 1 ≤ windowCount srcObjSize (startByte + DAISY_CHAIN_CHUNK_SIZE) := by
      rw [windowCount_pos _ _ hlt] at h
      omega
    rw [performDownload, if_pos hlt]
    rw [show (List.replicate (i+1) false ++ true :: rest).headI = false from rfl]
    rw [if_neg (by simp)]
    rw [show (List.replicate (i+1) false ++ true :: rest).tail
        = List.replicate i false ++ true :: rest from rfl]
    rw [ih (startByte + DAISY_CHAIN_CHUNK_SIZE) rest hwc]
    conv_rhs => rw [rangedWindows_succ]

theorem windowCount_windows_aux (srcObjSize : Int) (n : Nat) :
    ∀ startByte, (srcObjSize - startByte).toNat ≤ n →
      (∀ i : Nat, i < windowCount srcObjSize startByte →
        startByte + i * DAISY_CHAIN_CHUNK_SIZE + DAISY_CHAIN_CHUNK_SIZE < srcObjSize) ∧
      ¬ (startByte + (windowCount srcObjSize startByte) * DAISY_CHAIN_CHUNK_SIZE +
          DAISY_CHAIN_CHUNK_SIZE < srcObjSize) := by
  induction n with
  | zero =>
    intro startByte hle
    have hnot : ¬ startByte + DAISY_CHAIN_CHUNK_SIZE < srcObjSize := by
      have := chunk_size_pos
      omega
    rw [windowCount_base _ _ hnot]
    refine ⟨fun i hi => absurd hi (by omega), ?_⟩
    simpa using hnot
  | succ n ih =>
    intro startByte hle
    by_cases h : startByte + DAISY_CHAIN_CHUNK_SIZE < srcObjSize
    · have := ih (startByte + DAISY_CHAIN_CHUNK_SIZE)
        (by have := chunk_size_pos; omega)
      rw [windowCount_pos _ _ h]
      obtain ⟨hall, hfin⟩ := this
      constructor
      · intro i hi
        cases i with
        | zero => simpa using h
        | succ i =>
          have hlt : i < windowCount srcObjSize (startByte + DAISY_CHAIN_CHUNK_SIZE) := by
            omega
          have := hall i hlt
          push_cast
          push_cast at this
          linarith
      · intro hcon
        apply hfin
        push_cast at hcon
        linarith
    · rw [windowCount_base _ _ h]
      refine ⟨fun i hi => absurd hi (by omega), ?_⟩
      simpa using h

theorem reachable_cast {src : List Nat} {bound : Nat} {P : Int → Prop}
    {s t : DCState} (h : Reachable src bound P s) (he : s = t) :
    Reachable src bound P t := he ▸ h

/-- The popping branch of `read`, as one equation. -/
theorem read_pop_eq (src : List Nat) (s : DCState) (a : Int) (c : Chunk)
    (rest : List Chunk) (hpos : s.position ≠ (src.length : Int)) (ha0 : a ≠ 0)
    (hale : ¬ TRANSFER_BUFFER_SIZE < a) (hbuf : s.buffer = c :: rest) :
    read src s (some a) =
      (if a < chunkLen c then ReadResult.errSize else ReadResult.data c,
        { s with
          buffer := rest
          lastPosition := s.position
          lastData := some c
          position := s.position + chunkLen c
          bytesBuffered := s.bytesBuffered - chunkLen c }) := by
  by_cases hb : a < chunkLen c <;> simp [read, hbuf, hpos, ha0, hale, hb]

/-- The one-step-rewind branch of `seek` with a saved non-empty chunk,
as one equation. -/
theorem seek_rewind_eq (src : List Nat) (s : DCState) (c : Chunk)
    (hne : s.lastPosition ≠ s.position) (hld : s.lastData = some c)
    (hc : c ≠ []) :
    seek src s s.lastPosition SEEK_SET =
      (SeekResult.ok,
        { s with
          position := s.lastPosition
          buffer := c :: s.buffer
          bytesBuffered := s.bytesBuffered + chunkLen c }) := by
  unfold seek
  rw [if_neg (by decide), if_pos rfl, if_neg hne, if_pos rfl, hld]
  simp [hc]

/-! ## The claims -/

/-- C8: `seek(0, SEEK_END)` records the current position in
`lastPosition`, clears `lastData` and sets `position` to the object size,
so `tell()` reports the size and any subsequent `read` returns empty
without blocking; the buffer queue, the byte counter and the download
thread are untouched.  `seek(offset, SEEK_END)` with a non-zero offset
raises `BadRequestException` and changes nothing. -/
theorem seek_end_spec (src : List Nat) (s : DCState) :
    seek src s 0 SEEK_END =
      (SeekResult.ok,
        { s with
          lastPosition := s.position
          lastData := none
          position := (src.length : Int) }) ∧
    tell (seek src s 0 SEEK_END).2 = (src.length : Int) ∧
    (∀ amt, read src (seek src s 0 SEEK_END).2 amt =
        (ReadResult.empty, (seek src s 0 SEEK_END).2)) ∧
    (seek src s 0 SEEK_END).2.buffer = s.buffer ∧
    (seek src s 0 SEEK_END).2.bytesBuffered = s.bytesBuffered ∧
    (seek src s 0 SEEK_END).2.threadChunks = s.threadChunks ∧
    (seek src s 0 SEEK_END).2.pending = s.pending ∧
    (∀ offset : Int, offset ≠ 0 →
        seek src s offset SEEK_END = (SeekResult.errBadRequest, s)) := by
  have hs : seek src s 0 SEEK_END =
      (SeekResult.ok,
        { s with
          lastPosition := s.position
          lastData := none
          position := (src.length : Int) }) := by
    unfold seek
    rw [if_pos rfl, if_neg (by simp)]
  refine ⟨hs, by rw [hs]; rfl, ?_, by rw [hs], by rw [hs], by rw [hs], by rw [hs], ?_⟩
  · intro amt
    rw [hs]
    unfold read
    rw [if_pos (Or.inl rfl)]
  · intro offset hoff
    unfold seek
    rw [if_pos rfl, if_pos hoff]

theorem seek_end_spec_witness :
    seek [5] (initState [[5]]) 3 SEEK_END = (SeekResult.errBadRequest, initState [[5]]) ∧
    tell ((seek [5] (initState [[5]]) 0 SEEK_END).2) = 1 :=
  ⟨(seek_end_spec [5] (initState [[5]])).2.2.2.2.2.2.2 3 (by decide),
   (seek_end_spec [5] (initState [[5]])).2.1⟩

/-- C9: when `read` pops a chunk whose length exceeds `amt` and raises
the oversized-chunk `BadRequestException`, the raise happens only after
the state is mutated: the chunk is already off the queue, `position` is
advanced by its length, the byte counter decreased by it, and
`lastPosition`/`lastData` updated — `read` is not atomic on this path. -/
theorem read_oversize_mutates (src : List Nat) (s : DCState) (a : Int)
    (c : Chunk) (rest : List Chunk)
    (hpos : s.position ≠ (src.length : Int)) (ha0 : a ≠ 0)
    (hale : a ≤ TRANSFER_BUFFER_SIZE) (hbuf : s.buffer = c :: rest)
    (hbig : a < chunkLen c) :
    read src s (some a) =
      (ReadResult.errSize,
        { s with
          buffer := rest
          lastPosition := s.position
          lastData := some c
          position := s.position + chunkLen c
          bytesBuffered := s.bytesBuffered - chunkLen c }) := by
  have h1 : ¬ TRANSFER_BUFFER_SIZE < a := not_lt.mpr hale
  rw [read_pop_eq src s a c rest hpos ha0 h1 hbuf, if_pos hbig]

theorem read_oversize_mutates_witness :
    read [1, 2] (⟨0, [[1, 2]], 2, 0, none, [], none⟩ : DCState) (some 1) =
      (ReadResult.errSize, (⟨2, [], 0, 0, some [1, 2], [], none⟩ : DCState)) := by
  have h := read_oversize_mutates [1, 2] (⟨0, [[1, 2]], 2, 0, none, [], none⟩ : DCState)
    1 [1, 2] [] (by decide) (by decide) (by decide) rfl (by decide)
  exact h.trans (by decide)

/-- C10: a `seek` call that raises for invalid arguments — a non-zero
offset with `SEEK_END`, or an unsupported seek mode (`IOError`) — leaves
the whole state (position, buffer, counter, `lastPosition`, `lastData`,
download thread) exactly as it was. -/
theorem seek_invalid_unchanged (src : List Nat) (s : DCState)
    (offset whence : Int) :
    (offset ≠ 0 → seek src s offset SEEK_END = (SeekResult.errBadRequest, s)) ∧
    (whence ≠ SEEK_SET → whence ≠ SEEK_END →
        seek src s offset whence = (SeekResult.errIO, s)) := by
  constructor
  · intro hoff
    unfold seek
    rw [if_pos rfl, if_pos hoff]
  · intro hws hwe
    unfold seek
    rw [if_neg hwe, if_neg hws]

theorem seek_invalid_unchanged_witness :
    seek [5] (initState [[5]]) 3 SEEK_END =
      (SeekResult.errBadRequest, initState [[5]]) ∧
    seek [5] (initState [[5]]) 0 1 = (SeekResult.errIO, initState [[5]]) :=
  ⟨(seek_invalid_unchanged [5] (initState [[5]]) 3 1).1 (by decide),
   (seek_invalid_unchanged [5] (initState [[5]]) 0 1).2 (by decide) (by decide)⟩

/-- C3 counterexample: the claim says every `amt` outside
`(0, chunkSize]` (and absent `amt`) makes `read` raise `InvalidRequest`
in every bridge state.  But the end-of-data/zero-length check precedes
the validation: `read(0)` returns the empty string in any state, and at
`position == sourceSize` even `read(None)` and oversized `amt` return
empty instead of raising. -/
theorem read_validation_counterexample :
    read [1] (initState [[1]]) (some 0) = (ReadResult.empty, initState [[1]]) ∧
    read [1] (⟨1, [], 0, 0, none, [], none⟩ : DCState) none =
      (ReadResult.empty, (⟨1, [], 0, 0, none, [], none⟩ : DCState)) ∧
    read [1] (⟨1, [], 0, 0, none, [], none⟩ : DCState) (some 9000) =
      (ReadResult.empty, (⟨1, [], 0, 0, none, [], none⟩ : DCState)) := by
  refine ⟨?_, ?_, ?_⟩ <;> decide

/-- C3 amended: when `position ≠ sourceSize`, `read` with `amt = None`
or `amt > TRANSFER_BUFFER_SIZE` raises the validation
`BadRequestException` without touching the state; `read(0)`, and any
`read` at `position = sourceSize`, returns empty instead of raising; a
negative `amt` passes the validation and only fails with the
oversized-chunk error once a chunk is popped. -/
theorem read_validation_amended (src : List Nat) (s : DCState) (a : Int) :
    (s.position ≠ (src.length : Int) →
        read src s none = (ReadResult.errValidation, s)) ∧
    (s.position ≠ (src.length : Int) → TRANSFER_BUFFER_SIZE < a →
        read src s (some a) = (ReadResult.errValidation, s)) ∧
    read src s (some 0) = (ReadResult.empty, s) ∧
    (∀ amt, s.position = (src.length : Int) →
        read src s amt = (ReadResult.empty, s)) ∧
    (a < 0 → s.position ≠ (src.length : Int) →
        ∀ c rest, s.buffer = c :: rest →
          (read src s (some a)).1 = ReadResult.errSize) := by
  refine ⟨?_, ?_, ?_, ?_, ?_⟩
  · intro hpos
    unfold read
    rw [if_neg (by simp [hpos])]
  · intro hpos hbig
    have ha0 : a ≠ 0 := by
      have : (0:Int) < TRANSFER_BUFFER_SIZE := by norm_num [TRANSFER_BUFFER_SIZE]
      omega
    simp [read, hpos, ha0, hbig]
  · unfold read
    rw [if_pos (Or.inr rfl)]
  · intro amt hpos
    unfold read
    rw [if_pos (Or.inl hpos)]
  · intro hneg hpos c rest hbuf
    have ha0 : a ≠ 0 := by omega
    have h1 : ¬ TRANSFER_BUFFER_SIZE < a := by
      norm_num [TRANSFER_BUFFER_SIZE]
      omega
    have hbig : a < chunkLen c := by
      have := chunkLen_nonneg c
      omega
    simp [read, hbuf, hpos, ha0, h1, hbig]

theorem read_validation_amended_witness :
    read [1, 2] (⟨0, [[1]], 1, 0, none, [[2]], none⟩ : DCState) none =
      (ReadResult.errValidation, (⟨0, [[1]], 1, 0, none, [[2]], none⟩ : DCState)) ∧
    (read [1, 2] (⟨0, [[1]], 1, 0, none, [[2]], none⟩ : DCState) (some (-3))).1 =
      ReadResult.errSize :=
  ⟨(read_validation_amended [1, 2] _ (-3)).1 (by decide),
   (read_validation_amended [1, 2] _ (-3)).2.2.2.2 (by decide) (by decide)
     [1] [] rfl⟩

/-- C7 counterexample: the claim says `lastChunk` is non-null only when
the immediately preceding consumer operation was a successful read, and
every seek (including the one-step rewind) leaves it null.  In the code
the rewind branch does not clear `last_data`: after read + rewind-seek,
the preceding consumer operation is a seek and `lastData` is still set. -/
theorem lastData_rewind_counterexample :
    Reachable [7] 1 trueP (⟨1, [], 0, 0, some [7], [], none⟩ : DCState) ∧
    seek [7] (⟨1, [], 0, 0, some [7], [], none⟩ : DCState) 0 SEEK_SET =
      (SeekResult.ok, (⟨0, [[7]], 1, 0, some [7], [], none⟩ : DCState)) ∧
    Reachable [7] 1 trueP (⟨0, [[7]], 1, 0, some [7], [], none⟩ : DCState) ∧
    (⟨0, [[7]], 1, 0, some [7], [], none⟩ : DCState).lastData ≠ none := by
  have h0 : Reachable [7] 1 trueP (initState [[7]]) :=
    Reachable.init [[7]] (by decide)
  have h1 : Reachable [7] 1 trueP (⟨0, [], 0, 0, none, [], some [7]⟩ : DCState) :=
    reachable_cast
      (Reachable.step _ _ h0 (Step.prodCheck _ [7] [] rfl rfl (by decide)))
      (by decide)
  have h2 : Reachable [7] 1 trueP (⟨0, [[7]], 1, 0, none, [], none⟩ : DCState) :=
    reachable_cast
      (Reachable.step _ _ h1 (Step.prodAppend _ [7] rfl))
      (by decide)
  have h3 : Reachable [7] 1 trueP (⟨1, [], 0, 0, some [7], [], none⟩ : DCState) :=
    Reachable.step _ _ h2
      (Step.consRead _ (some 1) (ReadResult.data [7])
        (⟨1, [], 0, 0, some [7], [], none⟩ : DCState) (by decide) (by decide))
  have hseek : seek [7] (⟨1, [], 0, 0, some [7], [], none⟩ : DCState) 0 SEEK_SET =
      (SeekResult.ok, (⟨0, [[7]], 1, 0, some [7], [], none⟩ : DCState)) := by
    decide
  refine ⟨h3, hseek, ?_, by decide⟩
  exact Reachable.step _ _ h3
    (Step.consSeek _ 0 SEEK_SET SeekResult.ok _ hseek (by decide))

/-- C7 amended: `lastData` is cleared by `SEEK_END` seeks and by
restarts, is left unchanged (possibly non-null) by no-op seeks and by
one-step rewinds, and is set by every successful read; so it is non-null
exactly when some successful read happened with no later `SEEK_END` or
restart, not only when the immediately preceding operation was a read. -/
theorem lastData_seek_characterization (src : List Nat) (s : DCState)
    (offset : Int) (cs : List Chunk) :
    (seek src s 0 SEEK_END).2.lastData = none ∧
    (restartState offset cs).lastData = none ∧
    (offset = s.position → (seek src s offset SEEK_SET).2.lastData = s.lastData) ∧
    (offset = s.lastPosition →
        (seek src s offset SEEK_SET).2.lastData = s.lastData) ∧
    (∀ amt d sx, read src s amt = (ReadResult.data d, sx) →
        sx.lastData = some d) := by
  refine ⟨?_, rfl, ?_, ?_, ?_⟩
  · unfold seek
    rw [if_pos rfl, if_neg (by simp)]
  · intro h
    unfold seek
    rw [if_neg (by decide), if_pos rfl, if_pos h]
  · intro h
    by_cases hop : offset = s.position
    · unfold seek
      rw [if_neg (by decide), if_pos rfl, if_pos hop]
    · unfold seek
      rw [if_neg (by decide), if_pos rfl, if_neg hop, if_pos h]
      cases s.lastData with
      | none => rfl
      | some c =>
        by_cases hc : c = [] <;> simp [hc]
  · intro amt d sx hread
    obtain ⟨a, rest, -, -, -, -, -, -, hsx⟩ := read_data_eq src s amt d sx hread
    rw [hsx]

theorem prodStep_cast {s t t' : DCState} (h : ProdStep s t) (he : t = t') :
    ProdStep s t' := he ▸ h

/-- C2: immediately after a successful read of chunk `c` from old
position `p`, `seek(p, SEEK_SET)` (where `p = lastPosition`) sets the
position back to `p`, pushes `c` onto the front of the buffer queue,
adds `len(c)` back to the byte counter, and the very next read returns
exactly `c` again. -/
theorem rewind_seek_replays (src : List Nat) (bound : Nat) (P : Int → Prop)
    (s s' : DCState) (amt : Option Int) (c : Chunk)
    (hreach : Reachable src bound P s)
    (hread : read src s amt = (ReadResult.data c, s')) :
    s'.lastPosition = s.position ∧
    seek src s' s'.lastPosition SEEK_SET =
      (SeekResult.ok,
        { s' with
          position := s'.lastPosition
          buffer := c :: s'.buffer
          bytesBuffered := s'.bytesBuffered + chunkLen c }) ∧
    (seek src s' s'.lastPosition SEEK_SET).2.position = s.position ∧
    (read src (seek src s' s'.lastPosition SEEK_SET).2 amt).1 =
      ReadResult.data c := by
  obtain ⟨a, rest, hamt, hpos, ha0, hale, hbuf, hfit, hs'⟩ :=
    read_data_eq src s amt c s' hread
  have hW := (inv_reachable src bound P s hreach).1
  have hcok : chunkOk bound c :=
    hW.1 c (by rw [hbuf]; exact List.mem_cons_self c rest)
  have hcpos : 0 < chunkLen c := by
    unfold chunkLen
    cases c with
    | nil => exact absurd rfl hcok.1
    | cons x t => simp
  have hlast : s'.lastPosition = s.position := by rw [hs']
  have hposS : s'.position = s.position + chunkLen c := by rw [hs']
  have hldS : s'.lastData = some c := by rw [hs']
  have hseek : seek src s' s'.lastPosition SEEK_SET =
      (SeekResult.ok,
        { s' with
          position := s'.lastPosition
          buffer := c :: s'.buffer
          bytesBuffered := s'.bytesBuffered + chunkLen c }) := by
    unfold seek
    rw [if_neg (by decide), if_pos rfl]
    rw [if_neg (by rw [hlast, hposS]; omega), if_pos rfl]
    rw [hldS]
    simp [hcok.1]
  have h1 : ¬ TRANSFER_BUFFER_SIZE < a := not_lt.mpr hale
  have h2 : ¬ a < chunkLen c := not_lt.mpr hfit
  refine ⟨hlast, hseek, ?_, ?_⟩
  · rw [hseek]
    exact hlast
  · rw [hseek, hamt]
    simp [read, hlast, hpos, ha0, h1, h2]

theorem rewind_seek_replays_witness :
    Reachable [7] 1 trueP (⟨0, [[7]], 1, 0, none, [], none⟩ : DCState) ∧
    read [7] (⟨0, [[7]], 1, 0, none, [], none⟩ : DCState) (some 1) =
      (ReadResult.data [7], (⟨1, [], 0, 0, some [7], [], none⟩ : DCState)) ∧
    (read [7]
        (seek [7] (⟨1, [], 0, 0, some [7], [], none⟩ : DCState)
          (⟨1, [], 0, 0, some [7], [], none⟩ : DCState).lastPosition SEEK_SET).2
        (some 1)).1 = ReadResult.data [7] := by
  have h0 : Reachable [7] 1 trueP (initState [[7]]) :=
    Reachable.init [[7]] (by decide)
  have h1 : Reachable [7] 1 trueP (⟨0, [], 0, 0, none, [], some [7]⟩ : DCState) :=
    reachable_cast
      (Reachable.step _ _ h0 (Step.prodCheck _ [7] [] rfl rfl (by decide)))
      (by decide)
  have h2 : Reachable [7] 1 trueP (⟨0, [[7]], 1, 0, none, [], none⟩ : DCState) :=
    reachable_cast (Reachable.step _ _ h1 (Step.prodAppend _ [7] rfl)) (by decide)
  exact ⟨h2, by decide,
    (rewind_seek_replays [7] 1 trueP _ _ (some 1) [7] h2 (by decide)).2.2.2⟩

/-- C1: a `SEEK_SET` seek to an offset that is neither the current nor
the last position takes the restart branch; once the old thread has
exited, the state has `position = offset`, an empty buffer, a zero byte
counter, cleared `lastPosition`/`lastData`, and a fresh thread whose
writes partition the source from `offset`; whatever the new thread has
done so far, the next successful read returns bytes starting exactly at
`offset` of the source object. -/
theorem restart_seek_spec (src : List Nat) (bound : Nat) (s : DCState)
    (offset : Int) (cs : List Chunk)
    (hpos : offset ≠ s.position) (hlast : offset ≠ s.lastPosition)
    (hpend : s.pending = none)
    (hgood : goodChunks bound cs (src.drop offset.toNat)) :
    (seek src s offset SEEK_SET).1 = SeekResult.restartNeeded ∧
    Step src bound trueP s (restartState offset cs) ∧
    (restartState offset cs).position = offset ∧
    (restartState offset cs).buffer = [] ∧
    (restartState offset cs).bytesBuffered = 0 ∧
    (restartState offset cs).lastPosition = 0 ∧
    (restartState offset cs).lastData = none ∧
    (restartState offset cs).threadChunks = cs ∧
    (∀ s'' amt d sx, ProdEvolve (restartState offset cs) s'' →
        read src s'' amt = (ReadResult.data d, sx) →
        d ≠ [] ∧ d = (src.drop offset.toNat).take d.length) := by
  have hseek : (seek src s offset SEEK_SET).1 = SeekResult.restartNeeded := by
    unfold seek
    rw [if_neg (by decide), if_pos rfl, if_neg hpos, if_neg hlast]
  refine ⟨hseek, Step.consSeekRestart s offset cs hseek hpend trivial hgood,
    rfl, rfl, rfl, rfl, rfl, rfl, ?_⟩
  intro s'' amt d sx hev hread
  have hinv : prodInv cs s'' :=
    prodInv_evolve cs _ _ (prodInv_restart offset cs) hev
  obtain ⟨a, rest, -, -, -, -, hbuf, -, -⟩ := read_data_eq src s'' amt d sx hread
  obtain ⟨k, hbufk, -⟩ := hinv
  rw [hbuf] at hbufk
  obtain ⟨t, hcs⟩ := take_eq_cons_head cs k d rest hbufk.symm
  have hne : d ≠ [] :=
    (hgood.2 d (by rw [hcs]; exact List.mem_cons_self d t)).1
  refine ⟨hne, ?_⟩
  have hflat : d ++ t.flatten = src.drop offset.toNat := by
    rw [← hgood.1, hcs]
    simp
  rw [← hflat]
  exact (take_length_append d t.flatten).symm

theorem restart_seek_spec_witness :
    (2:Int) ≠ (initState [[1, 2, 3, 4, 5]]).position ∧
    (2:Int) ≠ (initState [[1, 2, 3, 4, 5]]).lastPosition ∧
    (initState [[1, 2, 3, 4, 5]]).pending = none ∧
    goodChunks 2 [[3], [4, 5]] (([1, 2, 3, 4, 5] : List Nat).drop (2:Int).toNat) ∧
    (seek [1, 2, 3, 4, 5] (initState [[1, 2, 3, 4, 5]]) 2 SEEK_SET).1 =
      SeekResult.restartNeeded ∧
    ProdEvolve (restartState 2 [[3], [4, 5]])
      (⟨2, [[3]], 1, 0, none, [[4, 5]], none⟩ : DCState) ∧
    read [1, 2, 3, 4, 5] (⟨2, [[3]], 1, 0, none, [[4, 5]], none⟩ : DCState)
        (some 8192) =
      (ReadResult.data [3], (⟨3, [], 0, 2, some [3], [[4, 5]], none⟩ : DCState)) ∧
    ([3] : Chunk) ≠ [] ∧
    ([3] : Chunk) = (([1, 2, 3, 4, 5] : List Nat).drop (2:Int).toNat).take
      ([3] : Chunk).length := by
  have hthm := restart_seek_spec [1, 2, 3, 4, 5] 2 (initState [[1, 2, 3, 4, 5]])
    2 [[3], [4, 5]] (by decide) (by decide) rfl (by decide)
  have hst1 : ProdStep (restartState 2 [[3], [4, 5]])
      (⟨2, [], 0, 0, none, [[4, 5]], some [3]⟩ : DCState) :=
    prodStep_cast (ProdStep.check _ [3] [[4, 5]] rfl rfl (by decide)) (by decide)
  have hst2 : ProdStep (⟨2, [], 0, 0, none, [[4, 5]], some [3]⟩ : DCState)
      (⟨2, [[3]], 1, 0, none, [[4, 5]], none⟩ : DCState) :=
    prodStep_cast (ProdStep.append _ [3] rfl) (by decide)
  have hev : ProdEvolve (restartState 2 [[3], [4, 5]])
      (⟨2, [[3]], 1, 0, none, [[4, 5]], none⟩ : DCState) :=
    Relation.ReflTransGen.tail (Relation.ReflTransGen.tail .refl hst1) hst2
  refine ⟨by decide, by decide, rfl, by decide, hthm.1, hev, by decide, ?_, ?_⟩
  · exact (hthm.2.2.2.2.2.2.2.2 _ (some 8192) [3]
      (⟨3, [], 0, 2, some [3], [[4, 5]], none⟩ : DCState) hev (by decide)).1
  · exact (hthm.2.2.2.2.2.2.2.2 _ (some 8192) [3]
      (⟨3, [], 0, 2, some [3], [[4, 5]], none⟩ : DCState) hev (by decide)).2

theorem lastData_seek_characterization_witness :
    (seek [5] (⟨1, [], 0, 0, some [5], [], none⟩ : DCState) 0 SEEK_END).2.lastData
      = none ∧
    (seek [5] (⟨1, [], 0, 0, some [5], [], none⟩ : DCState) 0 SEEK_SET).2.lastData
      = some [5] :=
  ⟨(lastData_seek_characterization [5] _ 0 []).1,
   (lastData_seek_characterization [5] (⟨1, [], 0, 0, some [5], [], none⟩ : DCState)
      0 []).2.2.2.1 rfl⟩

/-- C4: from start offset `s`, the fetch task issues ranged fetches over
the successive windows `[s + i*RANGE, s + (i+1)*RANGE)` exactly while the
remaining bytes exceed one window (the `j`-th window is issued iff
`s + j*RANGE + RANGE < size`), then exactly one final open-ended fetch;
after each windowed fetch it checks the stop signal and, if it is set at
the `i`-th check, clears it (`true` in the result) and returns after
exactly `i+1` windowed fetches, with no final fetch. -/
theorem performDownload_spec (srcObjSize startByte : Int) (stops : List Bool)
    (i : Nat) (rest : List Bool) :
    ((∀ b ∈ stops, b = false) →
      performDownload srcObjSize startByte stops =
        (specFetches startByte (windowCount srcObjSize startByte), false)) ∧
    (i + 1 ≤ windowCount srcObjSize startByte →
      performDownload srcObjSize startByte
          (List.replicate i false ++ true :: rest) =
        (rangedWindows startByte (i + 1), true)) ∧
    (∀ j : Nat, j < windowCount srcObjSize startByte →
      startByte + (j : Int) * DAISY_CHAIN_CHUNK_SIZE + DAISY_CHAIN_CHUNK_SIZE
        < srcObjSize) ∧
    ¬ (startByte + ((windowCount srcObjSize startByte : Nat) : Int) *
        DAISY_CHAIN_CHUNK_SIZE + DAISY_CHAIN_CHUNK_SIZE < srcObjSize) := by
  obtain ⟨h1, h2⟩ := windowCount_windows_aux srcObjSize
    (srcObjSize - startByte).toNat startByte (le_refl _)
  exact ⟨performDownload_no_stop_aux srcObjSize (srcObjSize - startByte).toNat
      startByte stops (le_refl _),
    performDownload_stop_aux srcObjSize i startByte rest, h1, h2⟩

theorem performDownload_spec_witness :
    (∀ b ∈ ([] : List Bool), b = false) ∧
    performDownload 209715205 0 [] =
      (specFetches 0 (windowCount 209715205 0), false) ∧
    0 + 1 ≤ windowCount 209715205 0 ∧
    performDownload 209715205 0 (List.replicate 0 false ++ true :: []) =
      (rangedWindows 0 (0 + 1), true) := by
  have hwc : windowCount 209715205 0 = 2 := by
    rw [windowCount_pos _ _ (by norm_num [DAISY_CHAIN_CHUNK_SIZE]),
      windowCount_pos _ _ (by norm_num [DAISY_CHAIN_CHUNK_SIZE]),
      windowCount_base _ _ (by norm_num [DAISY_CHAIN_CHUNK_SIZE])]
  have h := performDownload_spec 209715205 0 [] 0 []
  exact ⟨by simp, h.1 (by simp), by rw [hwc]; omega, h.2.1 (by rw [hwc]; omega)⟩

/-- C5 amended: in every reachable state, with every sink write of
length at most `bound`, the buffered-byte counter stays below
`maxBufferSize + 2*bound`: one chunk for the in-flight write whose
capacity check passed, plus one more because a one-step rewind can push
the saved chunk back while that write is in flight — not the claimed
`maxBufferSize + bound`. -/
theorem buffer_bound_amended (src : List Nat) (bound : Nat) (P : Int → Prop)
    (s : DCState) (h : Reachable src bound P s) :
    s.bytesBuffered ≤ maxBufferSize - 1 + 2 * (bound : Int) := by
  obtain ⟨hw, h5⟩ := inv_reachable src bound P s h
  have hc := credit_nonneg s
  have hb : (0:Int) ≤ (bound : Int) := Int.ofNat_nonneg bound
  cases hp : s.pending with
  | none =>
    have := h5.1 hp
    omega
  | some c =>
    have := h5.2 c hp
    omega

theorem buffer_bound_amended_witness :
    Reachable [7] 1 trueP (initState [[7]]) ∧
    (initState [[7]]).bytesBuffered ≤ maxBufferSize - 1 + 2 * ((1 : Nat) : Int) :=
  ⟨Reachable.init [[7]] (by decide),
   buffer_bound_amended [7] 1 trueP _ (Reachable.init [[7]] (by decide))⟩

/-- C5 counterexample: with sink writes of length up to 1048576 bytes
(= `maxBufferSize`), a state whose counter is 3145727 bytes is
reachable — more than `maxBufferSize` plus one chunk (2097152).  The
interleaving: write B (1 MiB, buffer full), read B, write E (1 MiB − 1),
pass the capacity check for a further 1-MiB write (counter is
1 MiB − 1 < 1 MiB), rewind-seek (pushes B back: counter 2 MiB − 1),
then the in-flight write appends (counter 3 MiB − 1). -/
theorem buffer_bound_counterexample :
    Reachable (List.replicate 3145727 0) 1048576 trueP
      (⟨0, [List.replicate 1048576 0, List.replicate 1048575 0,
            List.replicate 1048576 0], 3145727, 0,
        some (List.replicate 1048576 0), [], none⟩ : DCState) ∧
    ¬ (⟨0, [List.replicate 1048576 0, List.replicate 1048575 0,
            List.replicate 1048576 0], 3145727, 0,
        some (List.replicate 1048576 0), [], none⟩ : DCState).bytesBuffered ≤
      maxBufferSize + (1048576 : Int) := by
  have hlenB : chunkLen (List.replicate 1048576 (0:Nat)) = 1048576 := by
    unfold chunkLen
    rw [List.length_replicate]
    norm_num
  have hlenE : chunkLen (List.replicate 1048575 (0:Nat)) = 1048575 := by
    unfold chunkLen
    rw [List.length_replicate]
    norm_num
  have hBne : List.replicate 1048576 (0:Nat) ≠ [] := by
    intro h
    have hlen := congrArg List.length h
    rw [List.length_replicate, List.length_nil] at hlen
    exact absurd hlen (by norm_num)
  have hEne : List.replicate 1048575 (0:Nat) ≠ [] := by
    intro h
    have hlen := congrArg List.length h
    rw [List.length_replicate, List.length_nil] at hlen
    exact absurd hlen (by norm_num)
  have hgood : goodChunks 1048576
      [List.replicate 1048576 0, List.replicate 1048575 0,
        List.replicate 1048576 0] (List.replicate 3145727 (0:Nat)) := by
    constructor
    · show List.replicate 1048576 (0:Nat) ++ (List.replicate 1048575 0 ++
        (List.replicate 1048576 0 ++ [])) = _
      rw [List.append_nil, ← List.replicate_add, ← List.replicate_add,
        show (1048576 + (1048575 + 1048576) : Nat) = 3145727 by norm_num]
    · intro c hc
      rcases List.mem_cons.mp hc with rfl | hc
      · exact ⟨hBne, by rw [List.length_replicate]⟩
      rcases List.mem_cons.mp hc with rfl | hc
      · exact ⟨hEne, by rw [List.length_replicate]; norm_num⟩
      rcases List.mem_cons.mp hc with rfl | hc
      · exact ⟨hBne, by rw [List.length_replicate]⟩
      · exact absurd hc (List.not_mem_nil c)
  have h0 : Reachable (List.replicate 3145727 0) 1048576 trueP
      (initState [List.replicate 1048576 0, List.replicate 1048575 0,
        List.replicate 1048576 0]) :=
    Reachable.init _ hgood
  have h1 : Reachable (List.replicate 3145727 0) 1048576 trueP
      (⟨0, [], 0, 0, none,
        [List.replicate 1048575 0, List.replicate 1048576 0],
        some (List.replicate 1048576 0)⟩ : DCState) :=
    reachable_cast
      (Reachable.step _ _ h0
        (Step.prodCheck _ (List.replicate 1048576 0)
          [List.replicate 1048575 0, List.replicate 1048576 0] rfl rfl
          (by show (0:Int) < maxBufferSize; norm_num [maxBufferSize])))
      rfl
  have h2 : Reachable (List.replicate 3145727 0) 1048576 trueP
      (⟨0, [List.replicate 1048576 0], 1048576, 0, none,
        [List.replicate 1048575 0, List.replicate 1048576 0], none⟩ : DCState) :=
    reachable_cast
      (Reachable.step _ _ h1 (Step.prodAppend _ (List.replicate 1048576 0) rfl))
      (by rw [DCState.mk.injEq]
          refine ⟨rfl, rfl, ?_, rfl, rfl, rfl, rfl⟩
          rw [hlenB]
          norm_num)
  have hread : read (List.replicate 3145727 0)
      (⟨0, [List.replicate 1048576 0], 1048576, 0, none,
        [List.replicate 1048575 0, List.replicate 1048576 0], none⟩ : DCState)
      (some 8192) =
      (ReadResult.errSize,
        (⟨1048576, [], 0, 0, some (List.replicate 1048576 0),
          [List.replicate 1048575 0, List.replicate 1048576 0], none⟩
          : DCState)) := by
    have hp := read_pop_eq (List.replicate 3145727 0)
      (⟨0, [List.replicate 1048576 0], 1048576, 0, none,
        [List.replicate 1048575 0, List.replicate 1048576 0], none⟩ : DCState)
      8192 (List.replicate 1048576 0) []
      (by intro h
          rw [List.length_replicate] at h
          exact absurd h (by norm_num))
      (by norm_num) (by norm_num [TRANSFER_BUFFER_SIZE]) rfl
    rw [hp, hlenB, if_pos (by norm_num : (8192:Int) < 1048576)]
    rw [Prod.mk.injEq]
    refine ⟨rfl, ?_⟩
    rw [DCState.mk.injEq]
    exact ⟨by norm_num, rfl, by norm_num, rfl, rfl, rfl, rfl⟩
  have h3 : Reachable (List.replicate 3145727 0) 1048576 trueP
      (⟨1048576, [], 0, 0, some (List.replicate 1048576 0),
        [List.replicate 1048575 0, List.replicate 1048576 0], none⟩ : DCState) :=
    Reachable.step _ _ h2
      (Step.consRead _ (some 8192) ReadResult.errSize _ hread (by decide))
  have h4 : Reachable (List.replicate 3145727 0) 1048576 trueP
      (⟨1048576, [], 0, 0, some (List.replicate 1048576 0),
        [List.replicate 1048576 0],
        some (List.replicate 1048575 0)⟩ : DCState) :=
    reachable_cast
      (Reachable.step _ _ h3
        (Step.prodCheck _ (List.replicate 1048575 0)
          [List.replicate 1048576 0] rfl rfl
          (by show (0:Int) < maxBufferSize; norm_num [maxBufferSize])))
      rfl
  have h5 : Reachable (List.replicate 3145727 0) 1048576 trueP
      (⟨1048576, [List.replicate 1048575 0], 1048575, 0,
        some (List.replicate 1048576 0),
        [List.replicate 1048576 0], none⟩ : DCState) :=
    reachable_cast
      (Reachable.step _ _ h4 (Step.prodAppend _ (List.replicate 1048575 0) rfl))
      (by rw [DCState.mk.injEq]
          refine ⟨rfl, rfl, ?_, rfl, rfl, rfl, rfl⟩
          rw [hlenE]
          norm_num)
  have h6 : Reachable (List.replicate 3145727 0) 1048576 trueP
      (⟨1048576, [List.replicate 1048575 0], 1048575, 0,
        some (List.replicate 1048576 0), [],
        some (List.replicate 1048576 0)⟩ : DCState) :=
    reachable_cast
      (Reachable.step _ _ h5
        (Step.prodCheck _ (List.replicate 1048576 0) [] rfl rfl
          (by show (1048575:Int) < maxBufferSize; norm_num [maxBufferSize])))
      rfl
  have hseek : seek (List.replicate 3145727 0)
      (⟨1048576, [List.replicate 1048575 0], 1048575, 0,
        some (List.replicate 1048576 0), [],
        some (List.replicate 1048576 0)⟩ : DCState) 0 SEEK_SET =
      (SeekResult.ok,
        (⟨0, [List.replicate 1048576 0, List.replicate 1048575 0], 2097151, 0,
          some (List.replicate 1048576 0), [],
          some (List.replicate 1048576 0)⟩ : DCState)) := by
    have hsk : seek (List.replicate 3145727 0)
        (⟨1048576, [List.replicate 1048575 0], 1048575, 0,
          some (List.replicate 1048576 0), [],
          some (List.replicate 1048576 0)⟩ : DCState) 0 SEEK_SET =
        (SeekResult.ok,
          { (⟨1048576, [List.replicate 1048575 0], 1048575, 0,
              some (List.replicate 1048576 0), [],
              some (List.replicate 1048576 0)⟩ : DCState) with
            position := 0
            buffer := List.replicate 1048576 0 :: [List.replicate 1048575 0]
            bytesBuffered := 1048575 + chunkLen (List.replicate 1048576 0) }) :=
      seek_rewind_eq (List.replicate 3145727 0) _ (List.replicate 1048576 0)
        (by intro h; exact absurd h (by norm_num)) rfl hBne
    rw [hsk, Prod.mk.injEq]
    refine ⟨rfl, ?_⟩
    rw [DCState.mk.injEq]
    refine ⟨rfl, rfl, ?_, rfl, rfl, rfl, rfl⟩
    rw [hlenB]
    norm_num
  have h7 : Reachable (List.replicate 3145727 0) 1048576 trueP
      (⟨0, [List.replicate 1048576 0, List.replicate 1048575 0], 2097151, 0,
        some (List.replicate 1048576 0), [],
        some (List.replicate 1048576 0)⟩ : DCState) :=
    Reachable.step _ _ h6
      (Step.consSeek _ 0 SEEK_SET SeekResult.ok _ hseek (by decide))
  have h8 : Reachable (List.replicate 3145727 0) 1048576 trueP
      (⟨0, [List.replicate 1048576 0, List.replicate 1048575 0,
            List.replicate 1048576 0], 3145727, 0,
        some (List.replicate 1048576 0), [], none⟩ : DCState) :=
    reachable_cast
      (Reachable.step _ _ h7 (Step.prodAppend _ (List.replicate 1048576 0) rfl))
      (by rw [DCState.mk.injEq]
          refine ⟨rfl, rfl, ?_, rfl, rfl, rfl, rfl⟩
          rw [hlenB]
          norm_num)
  refine ⟨h8, ?_⟩
  show ¬ (3145727 : Int) ≤ maxBufferSize + 1048576
  norm_num [maxBufferSize]

/-- C6 amended: provided every restart seek offset lies inside
`[0, sourceSize]`, the invariant `0 ≤ position ≤ sourceSize` holds in
every reachable state; the code itself never checks the offset, so an
out-of-range from-start offset (accepted without raising) violates the
invariant. -/
theorem position_bound_amended (src : List Nat) (bound : Nat) (s : DCState)
    (h : Reachable src bound (boundedP src) s) :
    0 ≤ s.position ∧ s.position ≤ (src.length : Int) := by
  have h6 := inv6_reachable src bound s h
  exact ⟨h6.1, h6.2.1⟩

theorem position_bound_amended_witness :
    Reachable [7] 1 (boundedP [7]) (initState [[7]]) ∧
    (0 ≤ (initState [[7]]).position ∧
      (initState [[7]]).position ≤ (([7] : List Nat).length : Int)) :=
  ⟨Reachable.init [[7]] (by decide),
   position_bound_amended [7] 1 _ (Reachable.init [[7]] (by decide))⟩

/-- C6 counterexample: `seek(6, SEEK_SET)` on a 5-byte object raises
nothing (it takes the restart path) and leaves `position = 6`, violating
`position ≤ sourceSize`. -/
theorem position_bound_counterexample :
    Reachable [1, 2, 3, 4, 5] 5 trueP (⟨6, [], 0, 0, none, [], none⟩ : DCState) ∧
    ¬ (⟨6, [], 0, 0, none, [], none⟩ : DCState).position ≤
      (([1, 2, 3, 4, 5] : List Nat).length : Int) := by
  have h0 : Reachable [1, 2, 3, 4, 5] 5 trueP (initState [[1, 2, 3, 4, 5]]) :=
    Reachable.init [[1, 2, 3, 4, 5]] (by decide)
  refine ⟨?_, by decide⟩
  exact reachable_cast
    (Reachable.step _ _ h0
      (Step.consSeekRestart _ 6 [] (by decide) rfl trivial (by decide)))
    (by decide)

end DaisyChain
